import Mathlib

/-
  Verification of the core of `reshade-linux.py`, a ReShade installer for
  Linux.  The Python source is shallowly embedded: the filesystem is a total
  map from path strings to entries, every mutating operation is modelled as
  an explicit state transformer, and the classifier, merge engine,
  configuration store and installer are translated function by function from
  the source.
-/

namespace Reshade

/-- A filesystem entry at one path: nothing, a regular file, a directory, or
a symlink recording its stored target string (`Path.is_symlink` is an
`lstat`, so a symlink is recognised whether or not its target exists). -/
inductive Entry where
  | absent
  | file
  | dir
  | symlink (target : String)
  deriving DecidableEq

def Entry.isSymlink : Entry → Bool
  | .symlink _ => true
  | _ => false

/-- The filesystem: a total map from path strings to entries. -/
abbrev FS := String → Entry

/-- Python `Path.exists()` follows symlinks: an absent path does not exist, a file
or directory does, and a symlink exists exactly when its target is a real
file or directory (one level of indirection, which covers every path the
program manipulates). -/
def pexists (fs : FS) (p : String) : Bool :=
  match fs p with
  | .absent => false
  | .file => true
  | .dir => true
  | .symlink t =>
      match fs t with
      | .file => true
      | .dir => true
      | _ => false

/-- Path joining, `install_dir / name` (Python `Path.__truediv__`). -/
def pjoin (dir name : String) : String := dir ++ "/" ++ name

/-- Source lines 298-303: `safe_unlink` removes `path` and reports `True`
exactly when `path.is_symlink()`; otherwise the filesystem is untouched and
it reports `False`. -/
def safe_unlink (fs : FS) (p : String) : FS × Bool :=
  if (fs p).isSymlink then (Function.update fs p Entry.absent, true)
  else (fs, false)

/-- Source lines 286-295: `safe_symlink` — an existing symlink at `target`
is unlinked; an existing regular entry is renamed to `target + ".backup"`
when `backup` is set and removed outright otherwise; finally `target`
becomes a symlink to `source.resolve()`.  `resolve` abstracts
`Path.resolve` (symlink-free absolute form). -/
def safe_symlink (resolve : String → String) (fs : FS)
    (source target : String) (backup : Bool) : FS :=
  let fs1 :=
    if (fs target).isSymlink then Function.update fs target Entry.absent
    else if pexists fs target && backup then
      Function.update (Function.update fs (target ++ ".backup") (fs target))
        target Entry.absent
    else if pexists fs target then Function.update fs target Entry.absent
    else fs
  Function.update fs1 target (Entry.symlink (resolve source))

/-- Claim C1: for every path, `safe_unlink` removes the entry at that path
only if it is currently a symlink, and returns `true` exactly when a removal
occurred; if the path holds a regular file, a directory, or nothing, the
filesystem is left completely unchanged and the result is `false`. -/
theorem safe_unlink_spec (fs : FS) (p : String) :
    ((safe_unlink fs p).2 = true ↔ (fs p).isSymlink = true)
    ∧ ((fs p).isSymlink = false → safe_unlink fs p = (fs, false))
    ∧ ((fs p).isSymlink = true →
        (safe_unlink fs p).1 p = Entry.absent
        ∧ ∀ q, q ≠ p → (safe_unlink fs p).1 q = fs q) := by
  unfold safe_unlink
  rcases h : (fs p).isSymlink with _ | _
  · simp [h]
  · simp only [h, if_pos rfl]
    refine ⟨by simp, by simp, fun _ => ⟨?_, fun q hq => ?_⟩⟩
    · simp [Function.update]
    · simp [Function.update, hq]

/-- A tiny concrete filesystem: one symlink next to one regular file. -/
def fsW1 : FS :=
  fun q => if q = "/g/dxgi.dll" then Entry.symlink "/r/ReShade64.dll" else Entry.file

/-- Concrete exercise of `safe_unlink_spec`: a lone symlink is removed (and
the report is `true`), while a regular file is left alone. -/
theorem safe_unlink_spec_witness :
    (fsW1 "/g/dxgi.dll").isSymlink = true
    ∧ (safe_unlink fsW1 "/g/dxgi.dll").1 "/g/dxgi.dll" = Entry.absent
    ∧ (safe_unlink fsW1 "/g/dxgi.dll").1 "/g/other.txt" = Entry.file := by
  refine ⟨rfl, ?_, ?_⟩
  · exact ((safe_unlink_spec fsW1 "/g/dxgi.dll").2.2 rfl).1
  · have h := ((safe_unlink_spec fsW1 "/g/dxgi.dll").2.2 rfl).2 "/g/other.txt" (by decide)
    exact h.trans rfl

/-! ## Executable classifier (source lines 310-366, `analyze_executable`) -/

/-- The outcome of reading one executable, as a pure function of the file's
bytes.  `parsed machine imports` is a file whose structured PE header
and import table parse fully (`imports` is `none` when the file has no
`DIRECTORY_ENTRY_IMPORT`, the lowercased imported DLL names otherwise);
`rawMachine m` is a file whose structured parse raises but whose raw
machine-type word at offset `e_lfanew + 4` reads as `m`; `unreadable` is a
file on which even the raw two-field read raises.  (A partially mutated
`arch` from the structured path coincides with the raw word, since both
read the same bytes, so these three cases cover the function.) -/
inductive ExeFile where
  | parsed (machine : Nat) (imports : Option (List String))
  | rawMachine (machine : Nat)
  | unreadable
  deriving DecidableEq

def IMAGE_FILE_MACHINE_I386 : Nat := 0x14C

/-- Whether the structured header/import parse of the file raises. -/
def ExeFile.parseFailed : ExeFile → Bool
  | .parsed _ _ => false
  | _ => true

/-- Source lines 310-366: architecture / graphics API / override module of
one executable, with the sequential import-priority chain and the raw-header
fallback translated branch for branch. -/
def analyze_executable : ExeFile → Nat × String × String
  | .parsed machine imports =>
      let arch := if machine = IMAGE_FILE_MACHINE_I386 then 32 else 64
      match imports with
      | none => (arch, "dx11", "dxgi")
      | some imps =>
          if imps.contains "d3d12.dll" then (arch, "dx12", "dxgi")
          else if imps.contains "d3d11.dll" || imps.contains "dxgi.dll" then
            (arch, "dx11", "dxgi")
          else if imps.contains "d3d10.dll" || imps.contains "d3d10_1.dll" then
            (arch, "dx10", "d3d10")
          else if imps.contains "d3d9.dll" then (arch, "dx9", "d3d9")
          else if imps.contains "opengl32.dll" then (arch, "opengl", "opengl32")
          else if imps.contains "d3d8.dll" then (arch, "dx8", "d3d8")
          else (arch, "dx11", "dxgi")
  | .rawMachine machine =>
      if machine = IMAGE_FILE_MACHINE_I386 then (32, "dx11", "d3d9")
      else (64, "dx11", "dxgi")
  | .unreadable => (64, "dx11", "dxgi")

/-- Modelled from the spec (section 6): the fixed API-to-override-module
default mapping, used to check the module-consistency invariant against
`analyze_executable`. -/
def specApiToDll : String → Option String
  | "dx12" => some "dxgi"
  | "dx11" => some "dxgi"
  | "dx10" => some "d3d10"
  | "dx9" => some "d3d9"
  | "opengl" => some "opengl32"
  | "dx8" => some "d3d8"
  | _ => none

/-- Claim C2, counterexample: an import table holding `d3d12.dll`,
`d3d11.dll` and `d3d9.dll` contains both the level-11 and the level-9
library, yet classification returns API `dx12`, not `dx11`. -/
theorem analyze_both_counterexample :
    ("d3d11.dll" ∈ ["d3d12.dll", "d3d11.dll", "d3d9.dll"]
      ∧ "d3d9.dll" ∈ ["d3d12.dll", "d3d11.dll", "d3d9.dll"])
    ∧ (analyze_executable
        (.parsed 0x8664 (some ["d3d12.dll", "d3d11.dll", "d3d9.dll"]))).2.1
        ≠ "dx11" := by
  refine ⟨⟨by decide, by decide⟩, ?_⟩
  decide

/-- Claim C2, amended: for every executable whose parsed import table
contains both `d3d11.dll` and `d3d9.dll` and does not contain `d3d12.dll`,
classification returns API `dx11` with override module `dxgi`, not `dx9`:
the priority chain tests the level-12 library first and the level-11
libraries before the level-9 one. -/
theorem analyze_dx11_beats_dx9 (machine : Nat) (imps : List String)
    (h11 : imps.contains "d3d11.dll" = true)
    (h9 : imps.contains "d3d9.dll" = true)
    (h12 : imps.contains "d3d12.dll" = false) :
    (analyze_executable (.parsed machine (some imps))).2 = ("dx11", "dxgi") := by
  have h11m : "d3d11.dll" ∈ imps := by simpa using h11
  have h12m : "d3d12.dll" ∉ imps := by simpa using h12
  simp [analyze_executable, h11m, h12m]

/-- Concrete exercise of `analyze_dx11_beats_dx9` on an import table with
both libraries (and no level-12 one). -/
theorem analyze_dx11_beats_dx9_witness :
    (["d3d9.dll", "d3d11.dll"].contains "d3d11.dll" = true
      ∧ ["d3d9.dll", "d3d11.dll"].contains "d3d9.dll" = true
      ∧ ["d3d9.dll", "d3d11.dll"].contains "d3d12.dll" = false)
    ∧ (analyze_executable (.parsed 0x8664 (some ["d3d9.dll", "d3d11.dll"]))).2
        = ("dx11", "dxgi") :=
  ⟨⟨by decide, by decide, by decide⟩,
    analyze_dx11_beats_dx9 0x8664 ["d3d9.dll", "d3d11.dll"]
      (by decide) (by decide) (by decide)⟩

/-- Claim C3: on every file whose structured header/import parse fails,
classification is total (the embedding is a total function — the two
`except` arms of the source absorb every failure) and returns the
32-bit/d3d9 degraded result exactly when the raw machine word reads 0x14C,
and the unconditional 64-bit/dx11/dxgi default otherwise, including when
even the raw read fails. -/
theorem analyze_fallback (e : ExeFile) (h : e.parseFailed = true) :
    analyze_executable e =
      if e = .rawMachine IMAGE_FILE_MACHINE_I386 then (32, "dx11", "d3d9")
      else (64, "dx11", "dxgi") := by
  cases e with
  | parsed machine imports => simp [ExeFile.parseFailed] at h
  | rawMachine m =>
      by_cases hm : m = IMAGE_FILE_MACHINE_I386
      · subst hm; simp [analyze_executable]
      · simp [analyze_executable, hm]
  | unreadable => simp [analyze_executable]

/-- Concrete exercise of `analyze_fallback` at the raw 32-bit machine word
and at a fully unreadable file. -/
theorem analyze_fallback_witness :
    ((ExeFile.rawMachine 0x14C).parseFailed = true
      ∧ analyze_executable (.rawMachine 0x14C) = (32, "dx11", "d3d9"))
    ∧ (ExeFile.unreadable.parseFailed = true
      ∧ analyze_executable .unreadable = (64, "dx11", "dxgi")) := by
  constructor
  · refine ⟨rfl, ?_⟩
    have h := analyze_fallback (.rawMachine 0x14C) rfl
    simpa using h
  · refine ⟨rfl, ?_⟩
    have h := analyze_fallback .unreadable rfl
    simpa using h

/-- Claim C4, counterexample: the degraded 32-bit fallback returns the pair
(api `dx11`, module `d3d9`), which disagrees with the fixed API-to-module
mapping (`dx11` maps to `dxgi`). -/
theorem analyze_module_map_counterexample :
    specApiToDll (analyze_executable (.rawMachine 0x14C)).2.1
      ≠ some (analyze_executable (.rawMachine 0x14C)).2.2 := by
  decide

/-- Claim C4, amended: for every result produced through the structured
parse path, the override module is the fixed mapping applied to the
detected API; only the degraded raw-header fallback may return the
inconsistent pair (api `dx11`, module `d3d9`), and the unreadable default
is again consistent. -/
theorem analyze_module_map (machine : Nat) (imports : Option (List String)) :
    specApiToDll (analyze_executable (.parsed machine imports)).2.1
      = some (analyze_executable (.parsed machine imports)).2.2 := by
  rcases imports with _ | imps
  · simp [analyze_executable, specApiToDll]
  · simp only [analyze_executable]
    rcases h12 : imps.contains "d3d12.dll" with _ | _ <;>
      rcases h11 : imps.contains "d3d11.dll" with _ | _ <;>
        rcases hx : imps.contains "dxgi.dll" with _ | _ <;>
          rcases h10 : imps.contains "d3d10.dll" with _ | _ <;>
            rcases h10b : imps.contains "d3d10_1.dll" with _ | _ <;>
              rcases h9 : imps.contains "d3d9.dll" with _ | _ <;>
                rcases hgl : imps.contains "opengl32.dll" with _ | _ <;>
                  rcases h8 : imps.contains "d3d8.dll" with _ | _ <;>
                    simp [h12, h11, hx, h10, h10b, h9, hgl, h8, specApiToDll]

/-! ## Merge engine (source lines 643-714, `merge_shaders`)

The run first removes every symlink from the two destination directories
(regular files are left in place) and then walks the source trees in a
fixed order, calling `link_file` once per candidate file.  We embed the
walk as the ordered list of `(file, destination)` calls it makes, and the
destination state after the clearing pass as `blocked dir name`, true when
a (surviving, non-symlink) entry occupies `dir/name` — the only way
`target.exists()` can be true when a name is first seen, since symlinks
created by the run itself are only ever made under fresh names. -/

/-- One candidate source file: its filename (`source.name`) and the full
source path it would be linked from. -/
structure SourceFile where
  name : String
  src : String
  deriving DecidableEq

/-- One symlink the merge created: destination directory, filename, source. -/
structure MergeLink where
  dir : String
  name : String
  src : String
  deriving DecidableEq

/-- The run state: `seen_files` plus the links created so far. -/
structure MergeState where
  seen : List String
  links : List MergeLink
  deriving DecidableEq

/-- Source lines 659-668: `link_file` — a name already in `seen_files` is
skipped; otherwise the name is recorded and a symlink is created unless the
destination entry already exists. -/
def link_file (blocked : String → String → Bool) (st : MergeState)
    (f : SourceFile) (dir : String) : MergeState × Bool :=
  if st.seen.contains f.name then (st, false)
  else
    let st' : MergeState := { st with seen := f.name :: st.seen }
    if blocked dir f.name then (st', false)
    else ({ st' with links := st'.links ++ [⟨dir, f.name, f.src⟩] }, true)

/-- One merge run: fold `link_file` over the calls made by the fixed
traversal order, starting from an empty `seen_files` set. -/
def merge_run (blocked : String → String → Bool)
    (files : List (SourceFile × String)) : MergeState :=
  files.foldl (fun st p => (link_file blocked st p.1 p.2).1) ⟨[], []⟩

/-- Source line 714: the count the run reports is `len(seen_files)`. -/
def merge_reported_count (blocked : String → String → Bool)
    (files : List (SourceFile × String)) : Nat :=
  (merge_run blocked files).seen.length

/-- The link `l` was produced by the first call in `files` carrying `l.name`. -/
def IsFirstFor (files : List (SourceFile × String)) (l : MergeLink) : Prop :=
  ∃ pre f dir suf, files = pre ++ (f, dir) :: suf
    ∧ f.name = l.name ∧ f.src = l.src ∧ dir = l.dir
    ∧ ∀ p ∈ pre, p.1.name ≠ l.name

def mergeStep (blocked : String → String → Bool)
    (st : MergeState) (p : SourceFile × String) : MergeState :=
  (link_file blocked st p.1 p.2).1

lemma mergeStep_of_seen (blocked : String → String → Bool)
    (st : MergeState) (f : SourceFile) (dir : String)
    (h : f.name ∈ st.seen) : mergeStep blocked st (f, dir) = st := by
  simp [mergeStep, link_file, h]

lemma mergeStep_of_blocked (blocked : String → String → Bool)
    (st : MergeState) (f : SourceFile) (dir : String)
    (h : f.name ∉ st.seen) (hb : blocked dir f.name = true) :
    mergeStep blocked st (f, dir) = { st with seen := f.name :: st.seen } := by
  simp [mergeStep, link_file, h, hb]

lemma mergeStep_of_free (blocked : String → String → Bool)
    (st : MergeState) (f : SourceFile) (dir : String)
    (h : f.name ∉ st.seen) (hb : blocked dir f.name = false) :
    mergeStep blocked st (f, dir)
      = { seen := f.name :: st.seen,
          links := st.links ++ [⟨dir, f.name, f.src⟩] } := by
  simp [mergeStep, link_file, h, hb]

/-- Invariant carried through a merge run: link names are pairwise distinct
and every created link has its name in `seen_files`. -/
def MergeInv (st : MergeState) : Prop :=
  st.links.Pairwise (fun a b => a.name ≠ b.name)
  ∧ ∀ l ∈ st.links, l.name ∈ st.seen

lemma mergeRunAux_links (blocked : String → String → Bool)
    (files : List (SourceFile × String)) (st : MergeState)
    (hinv : MergeInv st) :
    MergeInv (files.foldl (mergeStep blocked) st)
    ∧ ∀ l ∈ (files.foldl (mergeStep blocked) st).links,
        l ∈ st.links ∨ (IsFirstFor files l ∧ l.name ∉ st.seen) := by
  induction files generalizing st with
  | nil =>
      refine ⟨hinv, fun l hl => Or.inl hl⟩
  | cons p rest ih =>
      obtain ⟨f, dir⟩ := p
      by_cases hseen : f.name ∈ st.seen
      · -- the name was already seen: the call is a no-op
        rw [List.foldl_cons, mergeStep_of_seen blocked st f dir hseen]
        obtain ⟨hinv', hfrom⟩ := ih st hinv
        refine ⟨hinv', fun l hl => ?_⟩
        rcases hfrom l hl with h | ⟨⟨pre, g, gd, suf, hfiles, hn, hs, hd, hpre⟩, hl2⟩
        · exact Or.inl h
        · refine Or.inr ⟨⟨(f, dir) :: pre, g, gd, suf, by rw [hfiles]; rfl,
            hn, hs, hd, ?_⟩, hl2⟩
          intro q hq
          rcases List.mem_cons.mp hq with hq | hq
          · subst hq
            intro hcontra
            exact hl2 (hcontra ▸ hseen)
          · exact hpre q hq
      · by_cases hblk : blocked dir f.name = true
        · -- fresh name, but the destination entry survives: no link
          rw [List.foldl_cons, mergeStep_of_blocked blocked st f dir hseen hblk]
          have hinv2 : MergeInv { st with seen := f.name :: st.seen } := by
            refine ⟨hinv.1, fun l hl => ?_⟩
            exact List.mem_cons_of_mem _ (hinv.2 l hl)
          obtain ⟨hinv', hfrom⟩ := ih _ hinv2
          refine ⟨hinv', fun l hl => ?_⟩
          rcases hfrom l hl with h | ⟨⟨pre, g, gd, suf, hfiles, hn, hs, hd, hpre⟩, hl2⟩
          · exact Or.inl h
          · simp only [List.mem_cons, not_or] at hl2
            refine Or.inr ⟨⟨(f, dir) :: pre, g, gd, suf, by rw [hfiles]; rfl,
              hn, hs, hd, ?_⟩, hl2.2⟩
            intro q hq
            rcases List.mem_cons.mp hq with hq | hq
            · subst hq
              exact fun hcontra => hl2.1 hcontra.symm
            · exact hpre q hq
        · -- fresh name, free destination: the link is created
          replace hblk : blocked dir f.name = false := Bool.eq_false_iff.mpr hblk
          rw [List.foldl_cons, mergeStep_of_free blocked st f dir hseen hblk]
          have hinv2 :
              MergeInv ⟨f.name :: st.seen, st.links ++ [⟨dir, f.name, f.src⟩]⟩ := by
            constructor
            · rw [List.pairwise_append]
              refine ⟨hinv.1, by simp, fun a ha b hb => ?_⟩
              rcases List.mem_singleton.mp hb with rfl
              intro hcontra
              simp only [MergeLink.mk.injEq] at hcontra
              exact hseen (hcontra ▸ hinv.2 a ha)
            · intro l hl
              rcases List.mem_append.mp hl with h | h
              · exact List.mem_cons_of_mem _ (hinv.2 l h)
              · rcases List.mem_singleton.mp h with rfl
                simp
          obtain ⟨hinv', hfrom⟩ := ih _ hinv2
          refine ⟨hinv', fun l hl => ?_⟩
          rcases hfrom l hl with h | ⟨⟨pre, g, gd, suf, hfiles, hn, hs, hd, hpre⟩, hl2⟩
          · rcases List.mem_append.mp h with h | h
            · exact Or.inl h
            · rcases List.mem_singleton.mp h with rfl
              exact Or.inr ⟨⟨[], f, dir, rest, by simp, rfl, rfl, rfl, by simp⟩,
                hseen⟩
          · simp only [List.mem_cons, not_or] at hl2
            refine Or.inr ⟨⟨(f, dir) :: pre, g, gd, suf, by rw [hfiles]; rfl,
              hn, hs, hd, ?_⟩, hl2.2⟩
            intro q hq
            rcases List.mem_cons.mp hq with hq | hq
            · subst hq
              exact fun hcontra => hl2.1 hcontra.symm
            · exact hpre q hq

lemma mergeRunAux_links_mono (blocked : String → String → Bool)
    (files : List (SourceFile × String)) (st : MergeState) (l : MergeLink)
    (h : l ∈ st.links) :
    l ∈ (files.foldl (mergeStep blocked) st).links := by
  induction files generalizing st with
  | nil => exact h
  | cons p rest ih =>
      obtain ⟨f, dir⟩ := p
      rw [List.foldl_cons]
      by_cases hseen : f.name ∈ st.seen
      · rw [mergeStep_of_seen blocked st f dir hseen]
        exact ih st h
      · by_cases hblk : blocked dir f.name = true
        · rw [mergeStep_of_blocked blocked st f dir hseen hblk]
          exact ih _ h
        · replace hblk : blocked dir f.name = false := Bool.eq_false_iff.mpr hblk
          rw [mergeStep_of_free blocked st f dir hseen hblk]
          exact ih _ (List.mem_append.mpr (Or.inl h))

lemma mergeRunAux_seen_fresh (blocked : String → String → Bool)
    (files : List (SourceFile × String)) (st : MergeState) (n : String)
    (h : n ∉ st.seen) (hfiles : ∀ p ∈ files, p.1.name ≠ n) :
    n ∉ (files.foldl (mergeStep blocked) st).seen := by
  induction files generalizing st with
  | nil => exact h
  | cons p rest ih =>
      obtain ⟨f, dir⟩ := p
      have hp : f.name ≠ n := hfiles (f, dir) (by simp)
      rw [List.foldl_cons]
      have hnext : n ∉ (mergeStep blocked st (f, dir)).seen := by
        by_cases hseen : f.name ∈ st.seen
        · rw [mergeStep_of_seen blocked st f dir hseen]
          exact h
        · by_cases hblk : blocked dir f.name = true
          · rw [mergeStep_of_blocked blocked st f dir hseen hblk]
            simp only [List.mem_cons, not_or]
            exact ⟨fun hc => hp hc.symm, h⟩
          · replace hblk : blocked dir f.name = false := Bool.eq_false_iff.mpr hblk
            rw [mergeStep_of_free blocked st f dir hseen hblk]
            simp only [List.mem_cons, not_or]
            exact ⟨fun hc => hp hc.symm, h⟩
      exact ih _ hnext (fun q hq => hfiles q (by simp [hq]))

/-- Claim C5: in every merge run, link names are pairwise distinct (each
filename appears in at most one source mapping), every link created comes
from the first call in the traversal carrying its filename (later
same-named files are skipped, never overwriting), and the first call with a
given filename does create the link whenever no surviving destination entry
blocks it. -/
theorem merge_first_wins (blocked : String → String → Bool)
    (files : List (SourceFile × String)) :
    (merge_run blocked files).links.Pairwise (fun a b => a.name ≠ b.name)
    ∧ (∀ l ∈ (merge_run blocked files).links, IsFirstFor files l)
    ∧ (∀ pre f dir suf, files = pre ++ (f, dir) :: suf →
        (∀ p ∈ pre, p.1.name ≠ f.name) → blocked dir f.name = false →
        (⟨dir, f.name, f.src⟩ : MergeLink) ∈ (merge_run blocked files).links) := by
  have hrun : merge_run blocked files = files.foldl (mergeStep blocked) ⟨[], []⟩ := by
    unfold merge_run mergeStep
    rfl
  have hbase : MergeInv ⟨[], []⟩ := ⟨List.Pairwise.nil, by simp⟩
  obtain ⟨hinv, hfrom⟩ := mergeRunAux_links blocked files ⟨[], []⟩ hbase
  rw [hrun]
  refine ⟨hinv.1, fun l hl => ?_, fun pre f dir suf hsplit hpre hblk => ?_⟩
  · rcases hfrom l hl with h | ⟨h, _⟩
    · simp at h
    · exact h
  · subst hsplit
    rw [List.foldl_append, List.foldl_cons]
    have hfresh : f.name ∉ (pre.foldl (mergeStep blocked) ⟨[], []⟩).seen :=
      mergeRunAux_seen_fresh blocked pre ⟨[], []⟩ f.name (by simp)
        (fun q hq => hpre q hq)
    rw [mergeStep_of_free blocked _ f dir hfresh hblk]
    refine mergeRunAux_links_mono blocked suf _ _ ?_
    simp

/-- Concrete exercise of `merge_first_wins`: two trees both offering
`A.fx`; only the first tree's copy is linked. -/
theorem merge_first_wins_witness :
    (merge_run (fun _ _ => false)
        [(⟨"A.fx", "/one/Shaders/A.fx"⟩, "/m/Shaders"),
         (⟨"A.fx", "/two/Shaders/A.fx"⟩, "/m/Shaders")]).links
      = [⟨"/m/Shaders", "A.fx", "/one/Shaders/A.fx"⟩]
    ∧ IsFirstFor
        [(⟨"A.fx", "/one/Shaders/A.fx"⟩, "/m/Shaders"),
         (⟨"A.fx", "/two/Shaders/A.fx"⟩, "/m/Shaders")]
        ⟨"/m/Shaders", "A.fx", "/one/Shaders/A.fx"⟩ := by
  constructor
  · rfl
  · refine (merge_first_wins (fun _ _ => false)
      [(⟨"A.fx", "/one/Shaders/A.fx"⟩, "/m/Shaders"),
       (⟨"A.fx", "/two/Shaders/A.fx"⟩, "/m/Shaders")]).2.1
      ⟨"/m/Shaders", "A.fx", "/one/Shaders/A.fx"⟩ ?_
    rw [show (merge_run (fun _ _ => false)
        [(⟨"A.fx", "/one/Shaders/A.fx"⟩, "/m/Shaders"),
         (⟨"A.fx", "/two/Shaders/A.fx"⟩, "/m/Shaders")]).links
      = [⟨"/m/Shaders", "A.fx", "/one/Shaders/A.fx"⟩] from rfl]
    simp

/-- Claim C10, counterexample: with one source file `A.fx` whose destination
name is occupied by a surviving regular file, the run reports a count of 1
(`len(seen_files)`) while zero symlinks were created. -/
theorem merge_count_counterexample :
    merge_reported_count (fun _ _ => true) [(⟨"A.fx", "/one/Shaders/A.fx"⟩, "/m/Shaders")]
      ≠ (merge_run (fun _ _ => true)
          [(⟨"A.fx", "/one/Shaders/A.fx"⟩, "/m/Shaders")]).links.length := by
  decide

/-- Claim C10, amended: the reported count is the number of distinct
filenames first encountered during the run; it equals the number of
symlinks actually created provided no surviving destination entry occupies
any of the processed filenames. -/
theorem merge_count_reported (blocked : String → String → Bool)
    (files : List (SourceFile × String))
    (h : ∀ p ∈ files, blocked p.2 p.1.name = false) :
    merge_reported_count blocked files = (merge_run blocked files).links.length := by
  unfold merge_reported_count merge_run
  have key : ∀ (fs : List (SourceFile × String)) (st : MergeState),
      (∀ p ∈ fs, blocked p.2 p.1.name = false) →
      st.seen.length = st.links.length →
      ((fs.foldl (fun st p => (link_file blocked st p.1 p.2).1) st).seen.length
        = (fs.foldl (fun st p => (link_file blocked st p.1 p.2).1) st).links.length) := by
    intro fs
    induction fs with
    | nil => intro st _ hlen; exact hlen
    | cons p rest ih =>
        intro st hb hlen
        rw [List.foldl_cons]
        refine ih _ (fun q hq => hb q (by simp [hq])) ?_
        have hp := hb p (by simp)
        unfold link_file
        split
        · exact hlen
        · simp [hp, hlen]
  exact key files ⟨[], []⟩ h rfl

/-- Concrete exercise of `merge_count_reported`: two distinct files into a
free destination give a reported count of 2 and two created links. -/
theorem merge_count_reported_witness :
    (∀ p ∈ [((⟨"A.fx", "/one/Shaders/A.fx"⟩ : SourceFile), "/m/Shaders"),
            (⟨"B.fx", "/one/Shaders/B.fx"⟩, "/m/Shaders")],
        (fun (_ _ : String) => false) p.2 p.1.name = false)
    ∧ merge_reported_count (fun _ _ => false)
        [(⟨"A.fx", "/one/Shaders/A.fx"⟩, "/m/Shaders"),
         (⟨"B.fx", "/one/Shaders/B.fx"⟩, "/m/Shaders")]
      = (merge_run (fun _ _ => false)
          [(⟨"A.fx", "/one/Shaders/A.fx"⟩, "/m/Shaders"),
           (⟨"B.fx", "/one/Shaders/B.fx"⟩, "/m/Shaders")]).links.length :=
  ⟨fun p _ => rfl,
    merge_count_reported (fun _ _ => false)
      [(⟨"A.fx", "/one/Shaders/A.fx"⟩, "/m/Shaders"),
       (⟨"B.fx", "/one/Shaders/B.fx"⟩, "/m/Shaders")]
      (fun p _ => rfl)⟩

/-! ## Game records and the configuration store
(source lines 144-186 `GameInfo`, 223-279 `GamesConfigManager`) -/

/-- Source lines 144-158: the `GameInfo` dataclass.  Paths are the strings
`pathlib.Path` wraps; `__post_init__` (mirrored by `GameInfo.mk'`) defaults
`install_path` to `path`. -/
structure GameInfo where
  name : String
  path : String
  exe_files : List String
  architecture : Nat
  detected_api : String
  dll_override : String
  install_path : Option String
  selected_exe : Option String
  deriving DecidableEq

/-- Python `__post_init__`: a missing `install_path` defaults to `path`. -/
def GameInfo.postInit (g : GameInfo) : GameInfo :=
  if g.install_path = none then { g with install_path := some g.path } else g

/-- Dataclass construction always runs `__post_init__`. -/
def GameInfo.mk' (name path : String) (exe_files : List String)
    (architecture : Nat) (detected_api dll_override : String)
    (install_path selected_exe : Option String) : GameInfo :=
  GameInfo.postInit
    ⟨name, path, exe_files, architecture, detected_api, dll_override,
      install_path, selected_exe⟩

/-- The JSON object `to_dict` writes: exactly seven fields; `exe_files` is
not serialized.  A `Path` is always truthy, so the `str(p) if p else None`
guards keep `some`/`none` as they are (paths are modelled as their string
form). -/
structure GameDict where
  name : String
  path : String
  architecture : Nat
  detected_api : String
  dll_override : String
  install_path : Option String
  selected_exe : Option String
  deriving DecidableEq

/-- Source lines 163-173: `GameInfo.to_dict`. -/
def GameInfo.to_dict (g : GameInfo) : GameDict :=
  ⟨g.name, g.path, g.architecture, g.detected_api, g.dll_override,
    g.install_path, g.selected_exe⟩

/-- Source lines 175-186: `GameInfo.from_dict` — `exe_files` takes its
default (the empty list) and `__post_init__` runs on construction. -/
def GameInfo.from_dict (d : GameDict) : GameInfo :=
  GameInfo.mk' d.name d.path [] d.architecture d.detected_api d.dll_override
    d.install_path d.selected_exe

/-- The persisted games document: resolved-path key to serialized record.
`_save` writes it verbatim and `_load` reads it back verbatim (the JSON
text round-trip), so a fresh manager instance over the same backing file
sees exactly this document. -/
abbrev GamesDoc := List (String × GameDict)

/-- Source lines 244-246: `_game_key` is `str(game_path.resolve())`;
`resolve` abstracts `Path.resolve` on the host filesystem. -/
def game_key (resolve : String → String) (game_path : String) : String :=
  resolve game_path

/-- Source lines 248-256: `get` looks the resolved key up and deserializes. -/
def games_get (doc : GamesDoc) (resolve : String → String)
    (game_path : String) : Option GameInfo :=
  match doc.find? (fun kv => kv.1 == game_key resolve game_path) with
  | some kv => some (GameInfo.from_dict kv.2)
  | none => none

/-- Source lines 258-262: `save` stores `to_dict` under the resolved key
(replacing any previous entry for that key) and flushes. -/
def games_save (doc : GamesDoc) (resolve : String → String)
    (g : GameInfo) : GamesDoc :=
  (game_key resolve g.path, g.to_dict)
    :: doc.filter (fun kv => kv.1 != game_key resolve g.path)

/-- Source lines 264-269: `remove` deletes the resolved key if present. -/
def games_remove (doc : GamesDoc) (resolve : String → String)
    (game_path : String) : GamesDoc :=
  doc.filter (fun kv => kv.1 != game_key resolve game_path)

/-- Claim C6, counterexample: a record carrying a non-empty candidate
executable list comes back from a save / reload / get round-trip with that
list reset to empty — not equal in all fields. -/
theorem store_roundtrip_counterexample :
    games_get
        (games_save [] id
          ⟨"game", "/p", ["/p/a.exe"], 64, "dx11", "dxgi", some "/p", none⟩)
        id "/p"
      ≠ some ⟨"game", "/p", ["/p/a.exe"], 64, "dx11", "dxgi", some "/p", none⟩ := by
  decide

/-- Claim C6, amended: for every record with a populated `install_path`
(which construction guarantees) and any path, saving and then reading the
same backing document back in a fresh instance yields a record equal to the
saved one in every field except `exe_files`, which is not serialized and
comes back empty. -/
theorem store_roundtrip (doc : GamesDoc) (resolve : String → String)
    (g : GameInfo) (h : g.install_path.isSome = true) :
    games_get (games_save doc resolve g) resolve g.path
      = some { g with exe_files := [] } := by
  obtain ⟨name, path, exe_files, arch, api, dll, ip, se⟩ := g
  rcases ip with _ | p
  · simp at h
  · simp [games_get, games_save, game_key, GameInfo.from_dict, GameInfo.to_dict,
      GameInfo.mk', GameInfo.postInit]

/-- Concrete exercise of `store_roundtrip`. -/
theorem store_roundtrip_witness :
    ((⟨"game", "/p", ["/p/a.exe"], 64, "dx11", "dxgi", some "/p", none⟩ :
        GameInfo).install_path.isSome = true)
    ∧ games_get
        (games_save [] id
          ⟨"game", "/p", ["/p/a.exe"], 64, "dx11", "dxgi", some "/p", none⟩)
        id "/p"
      = some ⟨"game", "/p", [], 64, "dx11", "dxgi", some "/p", none⟩ :=
  ⟨rfl, store_roundtrip [] id
    ⟨"game", "/p", ["/p/a.exe"], 64, "dx11", "dxgi", some "/p", none⟩ rfl⟩

/-! ## Uninstall (source lines 52-56 `RESHADE_LINKS`, 850-857
`uninstall_from_game`, 1142-1168 `run_uninstall_flow`) -/

/-- Source lines 52-56: the fixed filename list checked on uninstall. -/
def RESHADE_LINKS : List String :=
  ["d3d8.dll", "d3d9.dll", "d3d10.dll", "d3d11.dll", "dxgi.dll",
   "ddraw.dll", "dinput8.dll", "opengl32.dll", "d3dcompiler_47.dll",
   "ReShade.ini", "ReShade_shaders", "ReShade32.json", "ReShade64.json"]

/-- Source lines 850-857: try `safe_unlink` on each fixed filename under the
game path, collecting the names actually removed, in list order. -/
def uninstall_from_game (fs : FS) (game_path : String) : FS × List String :=
  RESHADE_LINKS.foldl
    (fun st n =>
      let r := safe_unlink st.1 (pjoin game_path n)
      (r.1, if r.2 then st.2 ++ [n] else st.2))
    (fs, [])

lemma pjoin_inj_right (dir : String) {a b : String}
    (h : pjoin dir a = pjoin dir b) : a = b := by
  have hd : (dir ++ "/").data ++ a.data = (dir ++ "/").data ++ b.data := by
    have hc := congrArg String.data h
    simpa [pjoin] using hc
  exact String.ext (List.append_cancel_left hd)

def unlinkStep (p : String) (st : FS × List String) (n : String) :
    FS × List String :=
  let r := safe_unlink st.1 (pjoin p n)
  (r.1, if r.2 then st.2 ++ [n] else st.2)

lemma unlinkAll_fs (links : List String) (fs : FS) (p : String)
    (acc : List String) (q : String) :
    (links.foldl (unlinkStep p) (fs, acc)).1 q =
      if links.any (fun n => pjoin p n == q) && (fs q).isSymlink then
        Entry.absent
      else fs q := by
  induction links generalizing fs acc with
  | nil => simp
  | cons n rest ih =>
      rw [List.foldl_cons]
      by_cases hq : q = pjoin p n
      · subst hq
        rcases hsym : (fs (pjoin p n)).isSymlink with _ | _
        · have hstep : unlinkStep p (fs, acc) n = (fs, acc) := by
            simp [unlinkStep, safe_unlink, hsym]
          rw [hstep, ih fs acc]
          simp [hsym]
        · have hstep : unlinkStep p (fs, acc) n
              = (Function.update fs (pjoin p n) Entry.absent, acc ++ [n]) := by
            simp [unlinkStep, safe_unlink, hsym]
          rw [hstep, ih]
          simp [hsym, Function.update]
      · rcases hsym : (fs (pjoin p n)).isSymlink with _ | _
        · have hstep : unlinkStep p (fs, acc) n = (fs, acc) := by
            simp [unlinkStep, safe_unlink, hsym]
          rw [hstep, ih fs acc]
          have : (pjoin p n == q) = false := by
            simp [BEq.beq]
            exact fun hc => hq hc.symm
          simp [this]
        · have hstep : unlinkStep p (fs, acc) n
              = (Function.update fs (pjoin p n) Entry.absent, acc ++ [n]) := by
            simp [unlinkStep, safe_unlink, hsym]
          rw [hstep, ih]
          have hne : (pjoin p n == q) = false := by
            simp [BEq.beq]
            exact fun hc => hq hc.symm
          have hupd : Function.update fs (pjoin p n) Entry.absent q = fs q := by
            simp [Function.update]
            intro hc
            exact absurd hc hq
          rw [hupd]
          simp [hne]

lemma unlinkAll_removed (links : List String) (fs : FS) (p : String)
    (acc : List String) (hnd : links.Nodup) :
    (links.foldl (unlinkStep p) (fs, acc)).2 =
      acc ++ links.filter (fun n => (fs (pjoin p n)).isSymlink) := by
  induction links generalizing fs acc with
  | nil => simp
  | cons n rest ih =>
      rw [List.foldl_cons]
      have hnd' : rest.Nodup := hnd.of_cons
      have hnmem : n ∉ rest := (List.nodup_cons.mp hnd).1
      rcases hsym : (fs (pjoin p n)).isSymlink with _ | _
      · have hstep : unlinkStep p (fs, acc) n = (fs, acc) := by
          simp [unlinkStep, safe_unlink, hsym]
        rw [hstep, ih fs acc hnd']
        simp [hsym]
      · have hstep : unlinkStep p (fs, acc) n
            = (Function.update fs (pjoin p n) Entry.absent, acc ++ [n]) := by
          simp [unlinkStep, safe_unlink, hsym]
        rw [hstep, ih _ _ hnd']
        have hcong :
            rest.filter
                (fun m => (Function.update fs (pjoin p n) Entry.absent
                    (pjoin p m)).isSymlink)
              = rest.filter (fun m => (fs (pjoin p m)).isSymlink) := by
          refine List.filter_congr ?_
          intro m hm
          have hne : pjoin p m ≠ pjoin p n := by
            intro hc
            exact hnmem (pjoin_inj_right p hc ▸ hm)
          rw [Function.update_noteq hne]
        rw [hcong]
        simp [hsym, List.filter_cons, List.append_assoc]

lemma uninstall_eq_foldl (fs : FS) (p : String) :
    uninstall_from_game fs p = RESHADE_LINKS.foldl (unlinkStep p) (fs, []) := rfl

lemma uninstall_removed (fs : FS) (p : String) :
    (uninstall_from_game fs p).2 =
      RESHADE_LINKS.filter (fun n => (fs (pjoin p n)).isSymlink) := by
  rw [uninstall_eq_foldl,
    unlinkAll_removed RESHADE_LINKS fs p [] (by decide)]
  simp

lemma uninstall_fs (fs : FS) (p : String) (q : String) :
    (uninstall_from_game fs p).1 q =
      if RESHADE_LINKS.any (fun n => pjoin p n == q) && (fs q).isSymlink then
        Entry.absent
      else fs q := by
  rw [uninstall_eq_foldl]
  exact unlinkAll_fs RESHADE_LINKS fs p [] q

lemma uninstall_no_symlink_left (fs : FS) (p : String) (n : String)
    (hn : n ∈ RESHADE_LINKS) :
    ((uninstall_from_game fs p).1 (pjoin p n)).isSymlink = false := by
  rw [uninstall_fs]
  have hany : RESHADE_LINKS.any (fun m => pjoin p m == pjoin p n) = true := by
    refine List.any_eq_true.mpr ⟨n, hn, ?_⟩
    simp
  rcases hsym : (fs (pjoin p n)).isSymlink with _ | _
  · simp [hsym]
  · simp [hany, hsym, Entry.isSymlink]

/-- Claim C9: running `uninstall_from_game` twice on the same target is a
no-op the second time — the second run removes nothing and leaves the
filesystem exactly as the first run left it; the first run's removed list
is non-empty whenever some fixed-list entry was a symlink, and when none
was, the run trivially succeeds with an empty removed list and an untouched
filesystem. -/
theorem uninstall_idempotent (fs : FS) (p : String) :
    ((uninstall_from_game (uninstall_from_game fs p).1 p).2 = []
      ∧ (uninstall_from_game (uninstall_from_game fs p).1 p).1
          = (uninstall_from_game fs p).1)
    ∧ ((∃ n ∈ RESHADE_LINKS, (fs (pjoin p n)).isSymlink = true) →
        (uninstall_from_game fs p).2 ≠ [])
    ∧ ((∀ n ∈ RESHADE_LINKS, (fs (pjoin p n)).isSymlink = false) →
        (uninstall_from_game fs p).2 = [] ∧ (uninstall_from_game fs p).1 = fs) := by
  have hclean := uninstall_no_symlink_left fs p
  refine ⟨⟨?_, ?_⟩, ?_, ?_⟩
  · rw [uninstall_removed]
    refine List.filter_eq_nil_iff.mpr ?_
    intro n hn
    simp [hclean n hn]
  · funext q
    rw [uninstall_fs]
    rcases hany : RESHADE_LINKS.any (fun n => pjoin p n == q) with _ | _
    · simp
    · obtain ⟨n, hn, hbeq⟩ := List.any_eq_true.mp hany
      have hq : pjoin p n = q := by simpa using hbeq
      subst hq
      simp [hclean n hn]
  · rintro ⟨n, hn, hsym⟩
    rw [uninstall_removed]
    intro hnil
    have : n ∈ RESHADE_LINKS.filter (fun n => (fs (pjoin p n)).isSymlink) :=
      List.mem_filter.mpr ⟨hn, by simp [hsym]⟩
    rw [hnil] at this
    exact List.not_mem_nil n this
  · intro hall
    constructor
    · rw [uninstall_removed]
      refine List.filter_eq_nil_iff.mpr ?_
      intro n hn
      simp [hall n hn]
    · funext q
      rw [uninstall_fs]
      rcases hany : RESHADE_LINKS.any (fun n => pjoin p n == q) with _ | _
      · simp
      · obtain ⟨n, hn, hbeq⟩ := List.any_eq_true.mp hany
        have hq : pjoin p n = q := by simpa using hbeq
        subst hq
        simp [hall n hn]

/-- A filesystem with one installed symlink under `/g`. -/
def fsW2 : FS :=
  fun q => if q = "/g/dxgi.dll" then Entry.symlink "/r/ReShade64.dll"
           else Entry.absent

/-- Concrete exercise of `uninstall_idempotent`: one installed symlink is
removed on the first run; the second run removes nothing. -/
theorem uninstall_idempotent_witness :
    ((∃ n ∈ RESHADE_LINKS, (fsW2 (pjoin "/g" n)).isSymlink = true)
      ∧ (uninstall_from_game fsW2 "/g").2 ≠ [])
    ∧ (uninstall_from_game (uninstall_from_game fsW2 "/g").1 "/g").2 = [] := by
  constructor
  · refine ⟨⟨"dxgi.dll", by decide, by decide⟩, ?_⟩
    exact (uninstall_idempotent fsW2 "/g").2.1 ⟨"dxgi.dll", by decide, by decide⟩
  · exact (uninstall_idempotent fsW2 "/g").1.1

/-! ## The uninstall flow and mutable world state -/

/-- The state the installer mutates: the filesystem plus the persisted
games document. -/
structure World where
  fs : FS
  store : GamesDoc

/-- Source lines 1160-1166 (after the user confirms): run
`uninstall_from_game` on the target's install path; the saved record is
removed only inside the `if removed:` branch. -/
def run_uninstall_flow (resolve : String → String) (w : World)
    (g : GameInfo) : World × List String :=
  let r := uninstall_from_game w.fs (g.install_path.getD g.path)
  if r.2.isEmpty then ({ fs := r.1, store := w.store }, r.2)
  else ({ fs := r.1, store := games_remove w.store resolve g.path }, r.2)

lemma games_get_remove (doc : GamesDoc) (resolve : String → String)
    (p : String) :
    games_get (games_remove doc resolve p) resolve p = none := by
  unfold games_get games_remove game_key
  induction doc with
  | nil => simp
  | cons kv rest ih =>
      by_cases hk : kv.1 = resolve p
      · simpa [hk] using ih
      · simp only [List.filter_cons]
        have hk' : (kv.1 != resolve p) = true := by simp [hk]
        rw [if_pos hk']
        rw [List.find?_cons_of_neg _ (by simp [hk])]
        exact ih

/-- Claim C8, counterexample: a target with a persisted record but no
ReShade symlinks on disk — the flow completes with an empty removed list
and the record is still in the store afterwards. -/
theorem uninstall_flow_counterexample :
    (run_uninstall_flow id
        ⟨fun _ => Entry.absent,
          [("/p", GameInfo.to_dict
            ⟨"game", "/p", [], 64, "dx11", "dxgi", some "/p", none⟩)]⟩
        ⟨"game", "/p", [], 64, "dx11", "dxgi", some "/p", none⟩).2 = []
    ∧ games_get
        ((run_uninstall_flow id
          ⟨fun _ => Entry.absent,
            [("/p", GameInfo.to_dict
              ⟨"game", "/p", [], 64, "dx11", "dxgi", some "/p", none⟩)]⟩
          ⟨"game", "/p", [], 64, "dx11", "dxgi", some "/p", none⟩).1).store
        id "/p"
      ≠ none := by
  constructor
  · rfl
  · intro hc
    have : games_get
        ((run_uninstall_flow id
          ⟨fun _ => Entry.absent,
            [("/p", GameInfo.to_dict
              ⟨"game", "/p", [], 64, "dx11", "dxgi", some "/p", none⟩)]⟩
          ⟨"game", "/p", [], 64, "dx11", "dxgi", some "/p", none⟩).1).store
        id "/p"
      = some (GameInfo.from_dict (GameInfo.to_dict
          ⟨"game", "/p", [], 64, "dx11", "dxgi", some "/p", none⟩)) := rfl
    rw [this] at hc
    exact Option.noConfusion hc

/-- Claim C8, amended: the flow unlinks every fixed-list entry that is a
symlink (none survives), and removes the persisted record exactly when the
removed list is non-empty; when nothing was removed, the store — any
record for the path included — is left untouched. -/
theorem uninstall_flow_store (resolve : String → String) (w : World)
    (g : GameInfo) :
    (∀ n ∈ RESHADE_LINKS,
        ((run_uninstall_flow resolve w g).1.fs
          (pjoin (g.install_path.getD g.path) n)).isSymlink = false)
    ∧ ((run_uninstall_flow resolve w g).2 ≠ [] →
        games_get (run_uninstall_flow resolve w g).1.store resolve g.path = none)
    ∧ ((run_uninstall_flow resolve w g).2 = [] →
        (run_uninstall_flow resolve w g).1.store = w.store) := by
  unfold run_uninstall_flow
  rcases hemp : (uninstall_from_game w.fs (g.install_path.getD g.path)).2.isEmpty
    with _ | _
  · simp only [hemp, Bool.false_eq_true, if_false]
    refine ⟨fun n hn => uninstall_no_symlink_left _ _ n hn,
      fun _ => games_get_remove w.store resolve g.path, fun hnil => ?_⟩
    rw [List.isEmpty_eq_false_iff_exists_mem] at hemp
    obtain ⟨x, hx⟩ := hemp
    rw [hnil] at hx
    exact absurd hx (List.not_mem_nil x)
  · simp only [hemp, if_true]
    refine ⟨fun n hn => uninstall_no_symlink_left _ _ n hn,
      fun hne => absurd (List.isEmpty_iff.mp hemp) hne, fun _ => ?_⟩
    trivial

/-- Concrete exercise of `uninstall_flow_store`: one installed symlink plus
a persisted record; the flow removes the symlink and the record. -/
theorem uninstall_flow_store_witness :
    ((run_uninstall_flow id
        ⟨fsW2, [("/g", GameInfo.to_dict
          ⟨"game", "/g", [], 64, "dx11", "dxgi", some "/g", none⟩)]⟩
        ⟨"game", "/g", [], 64, "dx11", "dxgi", some "/g", none⟩).2 ≠ [])
    ∧ games_get
        ((run_uninstall_flow id
          ⟨fsW2, [("/g", GameInfo.to_dict
            ⟨"game", "/g", [], 64, "dx11", "dxgi", some "/g", none⟩)]⟩
          ⟨"game", "/g", [], 64, "dx11", "dxgi", some "/g", none⟩).1).store
        id "/g"
      = none := by
  have hne : (run_uninstall_flow id
      ⟨fsW2, [("/g", GameInfo.to_dict
        ⟨"game", "/g", [], 64, "dx11", "dxgi", some "/g", none⟩)]⟩
      ⟨"game", "/g", [], 64, "dx11", "dxgi", some "/g", none⟩).2
      = ["dxgi.dll"] := rfl
  refine ⟨by rw [hne]; exact fun hc => List.noConfusion hc, ?_⟩
  exact (uninstall_flow_store id
    ⟨fsW2, [("/g", GameInfo.to_dict
      ⟨"game", "/g", [], 64, "dx11", "dxgi", some "/g", none⟩)]⟩
    ⟨"game", "/g", [], 64, "dx11", "dxgi", some "/g", none⟩).2.1
    (by rw [hne]; exact fun hc => List.noConfusion hc)

/-! ## Install (source lines 810-848, `install_to_game`) -/

/-- The configuration the install path reads: the main data directory, the
ReShade payload directory, the global ini filename, and the resolved
version string (`get_current_version`, which reads the `LVERS` file, is
abstracted into the latter). -/
structure Cfg where
  main_path : String
  reshade_path : String
  global_ini : String
  version : String

/-- Source line 813: `reshade_path / version / f"ReShade{arch}.dll"`. -/
def reshadeDllPath (cfg : Cfg) (g : GameInfo) : String :=
  pjoin (pjoin cfg.reshade_path cfg.version)
    ("ReShade" ++ toString g.architecture ++ ".dll")

/-- Source lines 558-594: `download_d3dcompiler` — a no-op when the
architecture-specific compiler library is already cached; otherwise it
downloads it (`fetchOk` abstracts the network and hash check succeeding)
or raises (`none`). -/
def download_d3dcompiler (fetchOk : Bool) (fs : FS) (srcPath : String) :
    Option FS :=
  if pexists fs srcPath then some fs
  else if fetchOk then some (Function.update fs srcPath Entry.file)
  else none

/-- Source lines 810-848: `install_to_game`.  An `Except.error` carries the
message together with the world as it stood when the exception was raised;
the missing-overlay check precedes every mutation. -/
def install_to_game (cfg : Cfg) (resolve : String → String) (fetchOk : Bool)
    (w : World) (g : GameInfo) : Except (String × World) World :=
  let dllPath := reshadeDllPath cfg g
  if pexists w.fs dllPath then
    let idir := g.install_path.getD g.path
    let fs1 := safe_symlink resolve w.fs dllPath
      (pjoin idir (g.dll_override ++ ".dll")) true
    let cSrc := pjoin cfg.main_path
      ("d3dcompiler_47.dll." ++ toString g.architecture)
    match download_d3dcompiler fetchOk fs1 cSrc with
    | none => .error ("d3dcompiler_47.dll not found in Firefox archive",
        { fs := fs1, store := w.store })
    | some fs2 =>
        let fs3 := safe_symlink resolve fs2 cSrc
          (pjoin idir "d3dcompiler_47.dll") false
        let fs4 := safe_symlink resolve fs3
          (pjoin cfg.main_path "ReShade_shaders")
          (pjoin idir "ReShade_shaders") false
        let iniSrc := pjoin cfg.main_path cfg.global_ini
        let fs5 :=
          if cfg.global_ini != "" && pexists fs4 iniSrc then
            safe_symlink resolve fs4 iniSrc (pjoin idir cfg.global_ini) false
          else fs4
        .ok { fs := fs5, store := games_save w.store resolve g }
  else .error ("ReShade DLL not found: " ++ dllPath, w)

lemma games_get_save (doc : GamesDoc) (resolve : String → String)
    (g : GameInfo) :
    games_get (games_save doc resolve g) resolve g.path
      = some (GameInfo.from_dict g.to_dict) := by
  unfold games_get games_save game_key
  rw [List.find?_cons_of_pos _ (by simp)]

/-- Claim C7: when the overlay library matching the target's architecture
is absent at its resolved path, install fails with an error naming that
path and the world — filesystem and store — exactly as it was: no symlink
is created and no record is persisted.  Whenever install returns
successfully, the overlay library existed and the record for the target's
path is in the returned store. -/
theorem install_missing_dll_atomic (cfg : Cfg) (resolve : String → String)
    (fetchOk : Bool) (w : World) (g : GameInfo) :
    (pexists w.fs (reshadeDllPath cfg g) = false →
        install_to_game cfg resolve fetchOk w g
          = .error ("ReShade DLL not found: " ++ reshadeDllPath cfg g, w))
    ∧ (∀ w', install_to_game cfg resolve fetchOk w g = .ok w' →
        pexists w.fs (reshadeDllPath cfg g) = true
        ∧ games_get w'.store resolve g.path
            = some (GameInfo.from_dict g.to_dict)) := by
  constructor
  · intro h
    unfold install_to_game
    simp [h]
  · intro w' hok
    simp only [install_to_game] at hok
    split at hok
    · split at hok
      · exact Except.noConfusion hok
      · refine ⟨by assumption, ?_⟩
        have hinj := Except.ok.inj hok
        rw [← hinj]
        exact games_get_save w.store resolve g
    · exact Except.noConfusion hok

/-- A world holding the 64-bit overlay payload and nothing else. -/
def wInst : World :=
  ⟨fun q => if q = "/r/reshade/5.0/ReShade64.dll" then Entry.file
            else Entry.absent, []⟩

def cfgInst : Cfg := ⟨"/r", "/r/reshade", "ReShade.ini", "5.0"⟩

def gInst : GameInfo :=
  ⟨"game", "/g", [], 64, "dx11", "dxgi", some "/g", none⟩

/-- Concrete exercise of `install_missing_dll_atomic`: a 32-bit target has
no matching overlay library in `wInst`, so install fails atomically with
the expected path in the message; the 64-bit target installs and its
record lands in the store. -/
theorem install_missing_dll_atomic_witness :
    (pexists wInst.fs (reshadeDllPath cfgInst
        ⟨"game", "/g", [], 32, "dx11", "dxgi", some "/g", none⟩) = false
      ∧ install_to_game cfgInst id true wInst
          ⟨"game", "/g", [], 32, "dx11", "dxgi", some "/g", none⟩
        = .error ("ReShade DLL not found: " ++ reshadeDllPath cfgInst
            ⟨"game", "/g", [], 32, "dx11", "dxgi", some "/g", none⟩, wInst))
    ∧ games_get
        (match install_to_game cfgInst id true wInst gInst with
          | .ok w' => w'.store
          | .error _ => []) id gInst.path
      = some (GameInfo.from_dict gInst.to_dict) := by
  refine ⟨⟨rfl, ?_⟩, ?_⟩
  · exact (install_missing_dll_atomic cfgInst id true wInst
      ⟨"game", "/g", [], 32, "dx11", "dxgi", some "/g", none⟩).1 rfl
  · exact ((install_missing_dll_atomic cfgInst id true wInst gInst).2
      (match install_to_game cfgInst id true wInst gInst with
        | .ok w' => w'
        | .error _ => ⟨fun _ => Entry.absent, []⟩) rfl).2

end Reshade
